import Mathlib

/-!
Shallow embedding of `parser/parser.go` from sachenna/go-junit-report.

The Go source parses `go test` output line by line.  Machine integers
(`time.Duration` = int64 nanoseconds, `int`) are embedded as `Int`, with
64-bit wrap-around made explicit (`wrap64`) where the source can overflow.
Go pointers (`*Test`) are embedded as indices into an explicit heap
(`St.heap`); the `[]*Test` stored in an emitted `Package` is a list of such
indices, dereferenced when `Parse` returns (`materialize`), which is the
point at which a caller observes the values.  Go maps are embedded as
association lists in insertion order (Go's iteration order is unspecified;
this is one deterministic refinement of it, and no theorem below depends on
a particular order beyond what the code itself fixes).
-/

namespace JR

/-- `Result` from parser.go: `PASS FAIL SKIP` via iota; the zero value is
`PASS`. -/
inductive Result where
  | PASS
  | FAIL
  | SKIP
deriving Repr, DecidableEq, Inhabited

/-- `Test` from parser.go.  `duration` and `time` embed int64 `time.Duration`
nanoseconds resp. the deprecated millisecond `int` field. -/
structure Test where
  name : String := ""
  duration : Int := 0
  result : Result := .PASS
  output : List String := []
  failure : List String := []
  skipMsg : List String := []
  subtestIndent : String := ""
  time : Int := 0
deriving Repr, DecidableEq, Inhabited

/-- `Benchmark` from parser.go (never constructed by `Parse`). -/
structure Benchmark where
  name : String := ""
  duration : Int := 0
  bytes : Int := 0
  allocs : Int := 0
deriving Repr, DecidableEq, Inhabited

/-- One entry of `report.Packages` as built during parsing: `Tests` is a
`[]*Test` in Go, embedded as heap indices. -/
structure PkgEntry where
  name : String := ""
  duration : Int := 0
  tests : List Nat := []
  benchmarks : List Benchmark := []
  coveragePct : String := ""
  time : Int := 0
deriving Repr, DecidableEq, Inhabited

/-- `Package` from parser.go as observed by the caller after `Parse`
returns: the `*Test` pointers are dereferenced into values. -/
structure Package where
  name : String := ""
  duration : Int := 0
  tests : List Test := []
  benchmarks : List Benchmark := []
  coveragePct : String := ""
  time : Int := 0
deriving Repr, DecidableEq, Inhabited

/-- `Report` from parser.go, as observed by the caller. -/
structure Report where
  packages : List Package := []
deriving Repr, DecidableEq, Inhabited

/-- The local struct `Info` declared inside `Parse` (fields `Suite`,
`Test`, `Msg`). -/
structure Info where
  Suite : String := ""
  Test : String := ""
  Msg : String := ""
deriving Repr, DecidableEq, Inhabited

/-! ### A tiny regex engine

The two patterns `Parse` actually consults (`regexResult`, `regexStatus`)
are transcribed into an abstract syntax tree and run by a backtracking
matcher with Go/Perl leftmost-first semantics (greedy quantifiers, first
alternative preferred), which is the documented submatch semantics of Go's
`regexp` package. -/

/-- Character classes occurring in the two patterns. -/
inductive CC where
  /-- a literal character -/
  | lit (c : Char)
  /-- regexp `\d` = `[0-9]` -/
  | digit
  /-- regexp `\w` = `[0-9A-Za-z_]` -/
  | wordc
  /-- regexp `\s` = `[\t\n\f\r ]` -/
  | space
  /-- a negated single-character class `[^c]` (matches any other char) -/
  | anyNot (c : Char)
  /-- regexp `.` (any char except newline; no `(?s)` flag is used) -/
  | dot
deriving Repr, DecidableEq

def CC.test : CC → Char → Bool
  | .lit c, a => a = c
  | .digit, a => a.isDigit
  | .wordc, a => a.isDigit || a.isAlpha || a = '_'
  | .space, a => a = '\t' || a = '\n' || a = '\x0c' || a = '\r' || a = ' '
  | .anyNot c, a => a ≠ c
  | .dot, a => a ≠ '\n'

/-- Regex AST.  Quantifiers in the transcribed patterns only ever apply to
single-character classes (`\s+`, `\d+`, `\w+`, `[^ ]+`, `.+`), so `many1`
is restricted to `CC`. -/
inductive Rx where
  | eps
  | cc (c : CC)
  | strLit (s : List Char)
  | seq (a b : Rx)
  | alt (a b : Rx)
  | opt (a : Rx)
  | many1 (c : CC)
  | grp (n : Nat) (a : Rx)
deriving Repr

/-- Submatch captures: group number paired with captured characters; the
most recent capture for a group is first. -/
def Caps := List (Nat × List Char)

/-- Remainder of `s` after the literal `l`, when `l` is a leading literal. -/
def takePref : List Char → List Char → Option (List Char)
  | [], s => some s
  | _ :: _, [] => none
  | a :: l, b :: s => if a = b then takePref l s else none

/-- Greedy matching of `i` down to `1` repetitions of a character class run
(the caller passes the maximal run length); backtracks through the
continuation `k`. -/
def tryCounts (s : List Char) (cp : Caps) (k : List Char → Caps → Option Caps) :
    Nat → Option Caps
  | 0 => none
  | i + 1 =>
    match k (s.drop (i + 1)) cp with
    | some r => some r
    | none => tryCounts s cp k i

/-- Backtracking matcher in continuation-passing style: leftmost-first /
greedy-preferred semantics, as in Go's `regexp` submatch extraction. -/
def mrun : Rx → List Char → Caps → (List Char → Caps → Option Caps) → Option Caps
  | .eps, s, cp, k => k s cp
  | .cc _, [], _, _ => none
  | .cc c, a :: s, cp, k => if c.test a then k s cp else none
  | .strLit l, s, cp, k =>
    match takePref l s with
    | some s' => k s' cp
    | none => none
  | .seq a b, s, cp, k => mrun a s cp (fun s' cp' => mrun b s' cp' k)
  | .alt a b, s, cp, k =>
    match mrun a s cp k with
    | some r => some r
    | none => mrun b s cp k
  | .opt a, s, cp, k =>
    match mrun a s cp k with
    | some r => some r
    | none => k s cp
  | .many1 c, s, cp, k => tryCounts s cp k (s.takeWhile c.test).length
  | .grp n a, s, cp, k =>
    mrun a s cp (fun s' cp' => k s' ((n, s.take (s.length - s'.length)) :: cp'))

/-- Whole-string match (for a pattern anchored `^...$`). -/
def matchFull (r : Rx) (s : List Char) : Option Caps :=
  mrun r s [] (fun rest cp => if rest = [] then some cp else none)

/-- Leftmost unanchored search (`FindStringSubmatch` on a pattern without
anchors). -/
def searchAt (r : Rx) : List Char → Option Caps
  | [] => mrun r [] [] (fun _ cp => some cp)
  | a :: t =>
    match mrun r (a :: t) [] (fun _ cp => some cp) with
    | some cp => some cp
    | none => searchAt r t

/-- Group lookup; a group that did not participate yields `""`, as Go's
`FindStringSubmatch` does. -/
def capGet (cp : Caps) (n : Nat) : String :=
  match cp.find? (fun p => p.1 = n) with
  | some p => String.mk p.2
  | none => ""

def chars (s : String) : List Char := s.toList

/-- Transcription of
`regexResult = ^(ok|FAIL)\s+([^ ]+)\s+(?:(\d+\.\d+)s|\(cached\)|(\[\w+ failed]))(?:\s+coverage:\s+(\d+\.\d+)%\sof\sstatements(?:\sin\s.+)?)?$`
(the `^`/`$` anchors are realized by `matchFull`). -/
def regexResultRx : Rx :=
  .seq (.grp 1 (.alt (.strLit (chars "ok")) (.strLit (chars "FAIL"))))
    (.seq (.many1 .space)
      (.seq (.grp 2 (.many1 (.anyNot ' ')))
        (.seq (.many1 .space)
          (.seq
            (.alt
              (.seq (.grp 3 (.seq (.many1 .digit) (.seq (.cc (.lit '.')) (.many1 .digit))))
                (.cc (.lit 's')))
              (.alt (.strLit (chars "(cached)"))
                (.grp 4 (.seq (.cc (.lit '['))
                  (.seq (.many1 .wordc) (.strLit (chars " failed]")))))))
            (.opt
              (.seq (.many1 .space)
                (.seq (.strLit (chars "coverage:"))
                  (.seq (.many1 .space)
                    (.seq (.grp 5 (.seq (.many1 .digit)
                        (.seq (.cc (.lit '.')) (.many1 .digit))))
                      (.seq (.cc (.lit '%'))
                        (.seq (.cc .space)
                          (.seq (.strLit (chars "of"))
                            (.seq (.cc .space)
                              (.seq (.strLit (chars "statements"))
                                (.opt (.seq (.cc .space)
                                  (.seq (.strLit (chars "in"))
                                    (.seq (.cc .space) (.many1 .dot)))))))))))))))))))

/-- Transcription of
`regexStatus = --- (PASS|FAIL|SKIP): (.+) \((\d+\.\d+)(?: seconds|s)\)`
(unanchored; searched with `searchAt`). -/
def regexStatusRx : Rx :=
  .seq (.strLit (chars "--- "))
    (.seq (.grp 1 (.alt (.strLit (chars "PASS"))
        (.alt (.strLit (chars "FAIL")) (.strLit (chars "SKIP")))))
      (.seq (.strLit (chars ": "))
        (.seq (.grp 2 (.many1 .dot))
          (.seq (.strLit (chars " ("))
            (.seq (.grp 3 (.seq (.many1 .digit) (.seq (.cc (.lit '.')) (.many1 .digit))))
              (.seq (.alt (.strLit (chars " seconds")) (.strLit (chars "s")))
                (.cc (.lit ')'))))))))

/-- `regexResult.FindStringSubmatch(line); len(matches) == 6` — with the
`^...$` anchors this is a whole-line match test (the Go code uses none of
the captures on this branch). -/
def isResultLine (line : String) : Bool :=
  (matchFull regexResultRx line.toList).isSome

/-- `regexStatus.FindStringSubmatch(line)` restricted to the three captures
the Go code reads: status keyword, test name, seconds. -/
def statusMatch (line : String) : Option (String × String × String) :=
  match searchAt regexStatusRx line.toList with
  | some cp => some (capGet cp 1, capGet cp 2, capGet cp 3)
  | none => none

/-! ### `path.Base` and duration parsing -/

/-- Go's `path.Base`: `""` gives `"."`; trailing slashes are stripped;
the segment after the last `/` is returned; a path of only slashes gives
`"/"`. -/
def pathBase (s : String) : String :=
  if s = "" then "."
  else
    let r := s.toList.reverse.dropWhile (fun c => c = '/')
    let seg := r.takeWhile (fun c => c ≠ '/')
    if seg = [] then "/" else String.mk seg.reverse

/-- int64 wrap-around, the overflow behavior of Go's `time.Duration`
arithmetic. -/
def wrap64 (x : Int) : Int :=
  (x + 9223372036854775808) % 18446744073709551616 - 9223372036854775808

/-- The largest int64 value. -/
def maxInt64 : Int := 9223372036854775807

/-- Digits to a number (the scanned text is ASCII digits). -/
def digitsToNat (l : List Char) : Nat :=
  l.foldl (fun a c => a * 10 + (c.toNat - 48)) 0

/-- `parseSeconds` from parser.go: `time.ParseDuration(t + "s")` with the
error ignored (errors yield duration 0).  The only call site passes a
capture of `\d+\.\d+`, so the model handles `""` (explicitly 0 in the
source), strings of shape `digits.digits` (value in nanoseconds, fractional
part truncated below 1ns, 0 on int64 overflow as `ParseDuration` then
errors), and returns 0 on anything else (a `ParseDuration` error). -/
def parseSeconds (t : String) : Int :=
  if t = "" then 0
  else
    let l := t.toList
    let d1 := l.takeWhile Char.isDigit
    let r1 := l.dropWhile Char.isDigit
    match r1 with
    | '.' :: r2 =>
      let d2 := r2.takeWhile Char.isDigit
      let r3 := r2.dropWhile Char.isDigit
      if d1 = [] || d2 = [] || r3 ≠ [] then 0
      else
        let v : Int := digitsToNat d1 * 1000000000 +
          digitsToNat d2 * 1000000000 / 10 ^ d2.length
        if v > maxInt64 then 0 else v
    | _ => 0

/-! ### Go `encoding/json` unmarshalling into the `Info` struct

`json.Unmarshal([]byte(line), &info)` succeeds iff `line` is one complete
JSON value (surrounded by optional whitespace) that is an object or
`null`, in which every member whose name matches a field of `Info`
case-insensitively has a string (or `null`) value.  Unknown members are
ignored, missing fields keep their zero value, later duplicates
overwrite.  (Go's fold is full-Unicode; the model folds ASCII letters,
which coincides on the field names `Suite`/`Test`/`Msg`.) -/

/-- JSON values; number lexemes are validated but their value is never
inspected by the Go code. -/
inductive Json where
  | null
  | bool (b : Bool)
  | num
  | str (s : String)
  | arr (l : List Json)
  | obj (l : List (String × Json))
deriving Repr

/-- JSON inter-token whitespace (space, tab, newline, carriage return). -/
def jsonWs (c : Char) : Bool :=
  c = ' ' || c = '\t' || c = '\n' || c = '\r'

def skipWs (s : List Char) : List Char := s.dropWhile jsonWs

def hexVal (c : Char) : Option Nat :=
  if c.isDigit then some (c.toNat - 48)
  else if 'a' ≤ c && c ≤ 'f' then some (c.toNat - 87)
  else if 'A' ≤ c && c ≤ 'F' then some (c.toNat - 70)
  else none

/-- Scalar value for a decoded `\uXXXX` escape: lone surrogates become
U+FFFD (as in Go's `unquote`); the caller handles surrogate pairs. -/
def scalarOf (n : Nat) : Char :=
  if n < 0xd800 then Char.ofNat n
  else if 0xe000 ≤ n ∧ n < 0x110000 then Char.ofNat n
  else '�'

/-- Four hex digits after `\u`. -/
def hex4 : List Char → Option (Nat × List Char)
  | a :: b :: c :: d :: rest => do
    let x ← hexVal a
    let y ← hexVal b
    let z ← hexVal c
    let w ← hexVal d
    some (((x * 16 + y) * 16 + z) * 16 + w, rest)
  | _ => none

/-- JSON string body (after the opening quote): returns the decoded string
and the remainder after the closing quote.  Unescaped control characters
are invalid; escape handling mirrors Go, including surrogate pairs and
U+FFFD for lone surrogates.  Fuel-based recursion; every step consumes at
least one character, so fuel = input length suffices. -/
def pStr : Nat → List Char → String → Option (String × List Char)
  | 0, _, _ => none
  | _ + 1, [], _ => none
  | fuel + 1, c :: rest, acc =>
    if c = '"' then some (acc, rest)
    else if c = '\\' then
      match rest with
      | [] => none
      | e :: rest2 =>
        if e = '"' then pStr fuel rest2 (acc.push '"')
        else if e = '\\' then pStr fuel rest2 (acc.push '\\')
        else if e = '/' then pStr fuel rest2 (acc.push '/')
        else if e = 'b' then pStr fuel rest2 (acc.push '\x08')
        else if e = 'f' then pStr fuel rest2 (acc.push '\x0c')
        else if e = 'n' then pStr fuel rest2 (acc.push '\n')
        else if e = 'r' then pStr fuel rest2 (acc.push '\r')
        else if e = 't' then pStr fuel rest2 (acc.push '\t')
        else if e = 'u' then
          match hex4 rest2 with
          | none => none
          | some (n, rest3) =>
            if 0xd800 ≤ n ∧ n < 0xdc00 then
              match rest3 with
              | '\\' :: 'u' :: rest4 =>
                match hex4 rest4 with
                | some (m, rest5) =>
                  if 0xdc00 ≤ m ∧ m < 0xe000 then
                    pStr fuel rest5
                      (acc.push (scalarOf (0x10000 + (n - 0xd800) * 0x400 + (m - 0xdc00))))
                  else pStr fuel rest3 (acc.push '�')
                | none => pStr fuel rest3 (acc.push '�')
              | _ => pStr fuel rest3 (acc.push '�')
            else pStr fuel rest3 (acc.push (scalarOf n))
        else none
    else if c.toNat < 0x20 then none
    else pStr fuel rest (acc.push c)

/-- String body with sufficient fuel. -/
def pString (s : List Char) (acc : String) : Option (String × List Char) :=
  pStr (s.length + 1) s acc

/-- Fractional part of a JSON number lexeme: `(\.[0-9]+)?`. -/
def pNumFrac : List Char → Option (List Char)
  | '.' :: r =>
    match r with
    | d :: _ => if d.isDigit then some (r.dropWhile Char.isDigit) else none
    | [] => none
  | r => some r

/-- Exponent part of a JSON number lexeme: `([eE][+-]?[0-9]+)?`. -/
def pNumExp : List Char → Option (List Char)
  | 'e' :: r | 'E' :: r =>
    let r2 := match r with
      | '+' :: t => t
      | '-' :: t => t
      | t => t
    match r2 with
    | d :: _ => if d.isDigit then some (r2.dropWhile Char.isDigit) else none
    | [] => none
  | r => some r

/-- JSON number lexeme: `-?(0|[1-9][0-9]*)(\.[0-9]+)?([eE][+-]?[0-9]+)?`,
validated only (the value is never used). -/
def pNum (s : List Char) : Option (List Char) :=
  let s1 := match s with
    | '-' :: r => r
    | r => r
  match s1 with
  | [] => none
  | c :: _ =>
    if ¬ c.isDigit then none
    else
      let s2 := if c = '0' then s1.drop 1 else s1.dropWhile Char.isDigit
      (pNumFrac s2).bind pNumExp

mutual

/-- One JSON value at the head of the input (leading whitespace allowed). -/
def pVal : Nat → List Char → Option (Json × List Char)
  | 0, _ => none
  | fuel + 1, s =>
    match skipWs s with
    | [] => none
    | c :: rest =>
      if c = 'n' then (takePref (chars "ull") rest).map (fun r => (.null, r))
      else if c = 't' then (takePref (chars "rue") rest).map (fun r => (.bool true, r))
      else if c = 'f' then (takePref (chars "alse") rest).map (fun r => (.bool false, r))
      else if c = '"' then (pString rest "").map (fun p => (.str p.1, p.2))
      else if c = '{' then
        match skipWs rest with
        | '}' :: r => some (.obj [], r)
        | r => pObj fuel r []
      else if c = '[' then
        match skipWs rest with
        | ']' :: r => some (.arr [], r)
        | r => pArr fuel r []
      else if c = '-' ∨ c.isDigit then (pNum (c :: rest)).map (fun r => (.num, r))
      else none

/-- Object members, positioned at a member's key (whitespace consumed). -/
def pObj : Nat → List Char → List (String × Json) → Option (Json × List Char)
  | 0, _, _ => none
  | fuel + 1, s, acc =>
    match s with
    | '"' :: rest => do
      let (k, r1) ← pString rest ""
      match skipWs r1 with
      | ':' :: r2 => do
        let (v, r3) ← pVal fuel r2
        match skipWs r3 with
        | ',' :: r4 => pObj fuel (skipWs r4) (acc ++ [(k, v)])
        | '}' :: r4 => some (.obj (acc ++ [(k, v)]), r4)
        | _ => none
      | _ => none
    | _ => none

/-- Array elements, positioned at an element (whitespace consumed). -/
def pArr : Nat → List Char → List Json → Option (Json × List Char)
  | 0, _, _ => none
  | fuel + 1, s, acc => do
    let (v, r1) ← pVal fuel s
    match skipWs r1 with
    | ',' :: r2 => pArr fuel r2 (acc ++ [v])
    | ']' :: r2 => some (.arr (acc ++ [v]), r2)
    | _ => none

end

/-- Parse a complete JSON text: one value with only whitespace around it
(`json.Unmarshal` rejects trailing data). -/
def parseJsonText (s : String) : Option Json :=
  match pVal (s.length + 1) s.toList with
  | some (j, rest) => if skipWs rest = [] then some j else none
  | none => none

/-- ASCII case folding (Go matches JSON keys to struct fields
case-insensitively). -/
def foldEqA (a b : String) : Bool :=
  a.toList.map Char.toLower = b.toList.map Char.toLower

/-- One object member applied to the partially decoded struct: a member
whose key matches a field case-insensitively must hold a string (which is
assigned) or `null` (skipped); any other value is an unmarshalling type
error; members matching no field are ignored. -/
def applyMember (i : Info) (kv : String × Json) : Option Info :=
  if foldEqA kv.1 "Suite" then
    match kv.2 with
    | .str s => some { i with Suite := s }
    | .null => some i
    | _ => none
  else if foldEqA kv.1 "Test" then
    match kv.2 with
    | .str s => some { i with Test := s }
    | .null => some i
    | _ => none
  else if foldEqA kv.1 "Msg" then
    match kv.2 with
    | .str s => some { i with Msg := s }
    | .null => some i
    | _ => none
  else some i

/-- Decoding a parsed JSON value into `Info`, as `json.Unmarshal` does for
a struct of three string fields: `null` leaves the zero value, an object
is folded member by member, anything else is a type error. -/
def decodeInfo : Json → Option Info
  | .null => some {}
  | .obj ms => ms.foldl (fun acc kv => acc.bind (fun i => applyMember i kv)) (some {})
  | _ => none

/-- `json.Unmarshal([]byte(line), &info)` with `err == nil`: the decoded
`Info` when unmarshalling succeeds. -/
def unmarshalInfo (line : String) : Option Info :=
  (parseJsonText line).bind decodeInfo

/-! ### The state of the parsing loop in `Parse`

`suites : map[string]map[string]*Test` and `cur : *Test` hold pointers
into a heap of `Test` objects; `report.Packages` accumulates flushed
packages whose `Tests` point into the same heap. -/

/-- The mutable state of one `Parse` invocation. -/
structure St where
  report : List PkgEntry := []
  suites : List (String × List (String × Nat)) := []
  heap : List Test := []
  cur : Option Nat := none
deriving Repr, DecidableEq, Inhabited

/-- Dereference a heap index (`*Test`); a dangling index yields the zero
`Test`, which never arises for indices the code stores. -/
def heapGet (h : List Test) (i : Nat) : Test := h.getD i default

/-- In-place update through a pointer. -/
def heapSet (h : List Test) (i : Nat) (t : Test) : List Test := h.set i t

/-- Association-list lookup (`m[k]` on a Go map). -/
def lookupA : List (String × Nat) → String → Option Nat
  | [], _ => none
  | kv :: rest, k => if kv.1 = k then some kv.2 else lookupA rest k

/-- Lookup of a suite's test map (`suites[name]`). -/
def lookupS : List (String × List (String × Nat)) → String → Option (List (String × Nat))
  | [], _ => none
  | sv :: rest, k => if sv.1 = k then some sv.2 else lookupS rest k

/-- Replacing a suite's test map (`suites[name] = m` for an existing key). -/
def setS (l : List (String × List (String × Nat))) (k : String)
    (m : List (String × Nat)) : List (String × List (String × Nat)) :=
  l.map (fun sv => if sv.1 = k then (k, m) else sv)

/-- The inner flush loop over one suite's test map
(`for _, testinfo := range testmap`): collects `finalTests` and
accumulates `suiteTime += testinfo.Duration` in wrapping int64
arithmetic. -/
def flushSuite (heap : List Test) (tm : List (String × Nat)) : List Nat × Int :=
  tm.foldl (fun acc kv => (acc.1 ++ [kv.2], wrap64 (acc.2 + (heapGet heap kv.2).duration)))
    ([], 0)

/-- The package entry appended for one suite at flush:
`Package{Name, Duration, Time: int(suiteTime / time.Millisecond), Tests}`
with zero `Benchmarks` and `CoveragePct`. -/
def mkPkgEntry (heap : List Test) (sv : String × List (String × Nat)) : PkgEntry :=
  let ft := flushSuite heap sv.2
  { name := sv.1, duration := ft.2, time := Int.tdiv ft.2 1000000, tests := ft.1 }

/-- The package-result branch of `Parse`: flush every accumulated suite
into the report and reset `suites` (`cur` is not touched). -/
def flush (st : St) : St :=
  { st with report := st.report ++ st.suites.map (mkPkgEntry st.heap), suites := [] }

/-- Scan all suites' test maps for a test stored under key `nm`
(the nested `for` loops with `break` in the status branch). -/
def findTestId : List (String × List (String × Nat)) → String → Option Nat
  | [], _ => none
  | sv :: rest, nm =>
    match lookupA sv.2 nm with
    | some i => some i
    | none => findTestId rest nm

/-- The status keyword to `Result` mapping of the status branch
(`PASS`, `SKIP`, anything else `FAIL`). -/
def kwResult (kw : String) : Result :=
  if kw = "PASS" then .PASS else if kw = "SKIP" then .SKIP else .FAIL

/-- The status-line branch of `Parse`: reduce the captured name with
`path.Base`, search all suites; on a miss clear `cur` and do nothing
else; on a hit set the test's result and duration and point `cur` at
it. -/
def statusStep (st : St) (kw nm secs : String) : St :=
  let curTest := pathBase nm
  match findTestId st.suites curTest with
  | none => { st with cur := none }
  | some i =>
    let t := heapGet st.heap i
    { st with
      heap := heapSet st.heap i
        { t with result := kwResult kw, duration := parseSeconds secs },
      cur := some i }

/-- The structured-record branch of `Parse`: look up or create the suite's
test map and the test (a fresh test carries only its name and the one
output line; its result and duration are the zero values), or append the
message to an existing test's output.  `cur` is not touched. -/
def addRecord (st : St) (info : Info) : St :=
  match lookupS st.suites info.Suite with
  | some tm =>
    match lookupA tm info.Test with
    | some i =>
      let t := heapGet st.heap i
      { st with heap := heapSet st.heap i { t with output := t.output ++ [info.Msg] } }
    | none =>
      { st with
        heap := st.heap ++ [{ name := info.Test, output := [info.Msg] }],
        suites := setS st.suites info.Suite (tm ++ [(info.Test, st.heap.length)]) }
  | none =>
    { st with
      heap := st.heap ++ [{ name := info.Test, output := [info.Msg] }],
      suites := st.suites ++ [(info.Suite, [(info.Test, st.heap.length)])] }

/-- The fallback branch of `Parse`: with a current test whose result is
FAIL (resp. SKIP) the raw line is appended to its failure (resp. skip)
lines; otherwise the line has no effect. -/
def fallbackStep (st : St) (line : String) : St :=
  match st.cur with
  | none => st
  | some i =>
    let t := heapGet st.heap i
    if t.result = .FAIL then
      { st with heap := heapSet st.heap i { t with failure := t.failure ++ [line] } }
    else if t.result = .SKIP then
      { st with heap := heapSet st.heap i { t with skipMsg := t.skipMsg ++ [line] } }
    else st

/-- One iteration of the parse loop on a successfully read line, in the
source's branch order: package-result, status, structured JSON record,
fallback. -/
def processLine (st : St) (line : String) : St :=
  if isResultLine line then flush st
  else
    match statusMatch line with
    | some g => statusStep st g.1 g.2.1 g.2.2
    | none =>
      match unmarshalInfo line with
      | some info => addRecord st info
      | none => fallbackStep st line

/-- One result of `reader.ReadLine()`: a line (terminator stripped), end
of stream, or a read error with some identifying code.  `bufio.ReadLine`
never returns both a line and an error. -/
inductive ReadEvent where
  | line (s : String)
  | eof
  | ioErr (e : Nat)
deriving Repr, DecidableEq

/-- The read loop of `Parse`: lines are processed, `io.EOF` breaks the
loop, any other read error aborts with that error. -/
def runLoop (st : St) : List ReadEvent → Except Nat St
  | [] => .ok st
  | .line s :: rest => runLoop (processLine st s) rest
  | .eof :: _ => .ok st
  | .ioErr e :: _ => .error e

/-- Dereferencing the `*Test` pointers of the accumulated report: what the
caller of `Parse` observes. -/
def materialize (st : St) : Report :=
  ⟨st.report.map (fun e =>
    { name := e.name, duration := e.duration, time := e.time,
      tests := e.tests.map (heapGet st.heap),
      benchmarks := e.benchmarks, coveragePct := e.coveragePct })⟩

set_option linter.unusedVariables false in
/-- `Parse(r, pkgName) (*Report, error)`: the two return values.  The
`pkgName` argument is accepted and unused, as in the source.  On a read
error the report pointer is nil (`none`). -/
def Parse (events : List ReadEvent) (pkgName : String) : Option Report × Option Nat :=
  match runLoop {} events with
  | .ok st => (some (materialize st), none)
  | .error e => (none, some e)

/-- `Report.Failures()`: the counting loop over all packages and tests. -/
def Failures (r : Report) : Nat :=
  r.packages.foldl
    (fun count p =>
      p.tests.foldl (fun c t => if t.result = .FAIL then c + 1 else c) count)
    0

/-! ### Specification-side definitions

These state the spec's words independently of the code, for comparison
with the embedded code above. -/

/-- The mathematical sum of the durations of the tests recorded in one
suite's test map (spec P2: "sum its tests' durations"). -/
def sumDur (heap : List Test) (tm : List (String × Nat)) : Int :=
  (tm.map (fun kv => (heapGet heap kv.2).duration)).sum

/-- The duration sum as the program computes it: `suiteTime +=
testinfo.Duration` on Go's int64 `time.Duration` wraps at every
addition. -/
def wsumDur (heap : List Test) (tm : List (String × Nat)) : Int :=
  tm.foldl (fun a kv => wrap64 (a + (heapGet heap kv.2).duration)) 0

/-- The spec's wording for rule 3 in claim C6: the line parses as a JSON
object with exactly the three string fields `Suite`, `Test`, `Msg` (in any
order, nothing else). -/
def strictRecord (l : String) : Bool :=
  match parseJsonText l with
  | some (.obj ms) =>
    ms.length == 3 && (ms.map Prod.fst).contains "Suite" &&
      (ms.map Prod.fst).contains "Test" && (ms.map Prod.fst).contains "Msg" &&
      ms.all (fun kv => match kv.2 with | .str _ => true | _ => false)
  | _ => false

/-- A string-or-`null` JSON value (acceptable for a matched field). -/
def strOrNull : Json → Bool
  | .str _ => true
  | .null => true
  | _ => false

/-- Per-member acceptability under Go's lenient decode: a member whose key
matches `Suite`/`Test`/`Msg` case-insensitively must hold a string or
`null`; all other members are acceptable. -/
def memberOk (kv : String × Json) : Bool :=
  if foldEqA kv.1 "Suite" then strOrNull kv.2
  else if foldEqA kv.1 "Test" then strOrNull kv.2
  else if foldEqA kv.1 "Msg" then strOrNull kv.2
  else true

/-- What `json.Unmarshal` into `Info` actually accepts: a complete JSON
text whose value is `null` or an object all of whose members are
`memberOk`. -/
def goInfoShape (l : String) : Bool :=
  match parseJsonText l with
  | some .null => true
  | some (.obj ms) => ms.all memberOk
  | _ => false

/-- A line that is a status line (rule 2: not a package-result line, and
matching `regexStatus`) whose captured name reduces to `N` under
`path.Base` — a "status line mentioning" the test named `N`. -/
def statusTargets (N : String) (l : String) : Bool :=
  !isResultLine l &&
    (match statusMatch l with
     | some g => decide (pathBase g.2.1 = N)
     | none => false)

/-- The first read failure a reader delivers: the code of the first
`ioErr` event, unless the stream ends (or reports `io.EOF`) first. -/
def firstIoErr : List ReadEvent → Option Nat
  | [] => none
  | .line _ :: rest => firstIoErr rest
  | .eof :: _ => none
  | .ioErr e :: _ => some e

/-- Invariant for claim C5 over the accumulation state: every test-map
entry points inside the heap at a test stored under its own name, and
every heap slot holding a test named `N` still has the zero result
(`PASS`) and zero duration. -/
def invC5 (N : String) (suites : List (String × List (String × Nat)))
    (heap : List Test) : Prop :=
  (∀ sv ∈ suites, ∀ kv ∈ sv.2,
    kv.2 < heap.length ∧ (heapGet heap kv.2).name = kv.1) ∧
  (∀ j : Nat, (heapGet heap j).name = N →
    (heapGet heap j).result = .PASS ∧ (heapGet heap j).duration = 0)

/-! ### Concrete fixtures used by witnesses and counterexamples -/

/-- A status line with a path-qualified name (reduces to `TestFoo`). -/
def lineC3 : String := "--- PASS: sub/TestFoo (0.10s)"

/-- A state with one accumulated suite (`pkgA` holding `TestFoo`,
duration 10ms). -/
def stW : St :=
  { report := [],
    suites := [("pkgA", [("TestFoo", 0)])],
    heap := [{ name := "TestFoo", duration := 10000000 }],
    cur := none }

/-- A state whose current test has failed (for the fallback rule). -/
def stF : St :=
  { report := [],
    suites := [("pkgA", [("TestFoo", 0)])],
    heap := [{ name := "TestFoo", result := .FAIL }],
    cur := some 0 }

/-- Scenario-3 stream: one structured record, then a cached package-result
line; no status line occurs. -/
def evC5 : List ReadEvent :=
  [.line "\x7b\"Suite\":\"pkgA\",\"Test\":\"TestBar\",\"Msg\":\"m\"\x7d",
   .line "ok pkgA (cached)"]

/-- The report parsed from `evC5`. -/
def rC5 : Report := ((Parse evC5 "").1).getD ⟨[]⟩

/-- A stream whose free-text line arrives after the package-result line
that flushed the test it is attributed to. -/
def evC10 : List ReadEvent :=
  [.line "\x7b\"Suite\":\"pkgA\",\"Test\":\"TestFoo\",\"Msg\":\"out\"\x7d",
   .line "--- FAIL: TestFoo (0.02s)",
   .line "FAIL pkgA 0.020s",
   .line "late failure detail"]

/-- A stream of structured records only (no package-result line). -/
def evC2 : List ReadEvent :=
  [.line "\x7b\"Suite\":\"pkgA\",\"Test\":\"T1\",\"Msg\":\"a\"\x7d",
   .line "\x7b\"Suite\":\"pkgA\",\"Test\":\"T2\",\"Msg\":\"b\"\x7d"]

/-- The report parsed from `evC2`. -/
def rC2 : Report := ((Parse evC2 "").1).getD ⟨[]⟩

/-- A stream whose single suite accumulates two tests of `maxInt64`
nanoseconds each (`9223372036.854775807` seconds is exactly 2^63 - 1 ns,
which `ParseDuration` accepts), so the flushed int64 duration sum
wraps. -/
def evC1 : List ReadEvent :=
  [.line "\x7b\"Suite\":\"pkgA\",\"Test\":\"T1\",\"Msg\":\"a\"\x7d",
   .line "\x7b\"Suite\":\"pkgA\",\"Test\":\"T2\",\"Msg\":\"b\"\x7d",
   .line "--- PASS: T1 (9223372036.854775807s)",
   .line "--- PASS: T2 (9223372036.854775807s)",
   .line "ok pkgA 1.0s"]

/-- The report parsed from `evC1`. -/
def rC1 : Report := ((Parse evC1 "").1).getD ⟨[]⟩

/-- A stream ending in a read error. -/
def evC8 : List ReadEvent := [.line "hello", .ioErr 7, .line "ignored"]

/-- A two-package report with two failed tests and a passed one
(spec scenario 6 for `Failures`). -/
def rC9 : Report :=
  ⟨[{ name := "p1", tests := [{ name := "a", result := .FAIL }, { name := "b" }] },
    { name := "p2", tests := [{ name := "c", result := .FAIL }] }]⟩

/-! ### Helper lemmas -/

theorem heapGet_nil (i : Nat) : heapGet [] i = default := by
  simp [heapGet]

theorem heapGet_set (h : List Test) (i j : Nat) (t : Test) :
    heapGet (heapSet h i t) j = if j = i ∧ i < h.length then t else heapGet h j := by
  induction h generalizing i j with
  | nil => simp [heapSet, heapGet]
  | cons a h ih =>
    cases i with
    | zero => cases j <;> simp [heapSet, heapGet]
    | succ n =>
      cases j with
      | zero => simp [heapSet, heapGet]
      | succ m =>
        have := ih n m
        simp only [heapSet, heapGet] at this ⊢
        simpa [Nat.succ_lt_succ_iff] using this

theorem length_heapSet (h : List Test) (i : Nat) (t : Test) :
    (heapSet h i t).length = h.length := by
  simp [heapSet]

theorem heapGet_append (h : List Test) (t : Test) (j : Nat) :
    heapGet (h ++ [t]) j =
      if j < h.length then heapGet h j else if j = h.length then t else default := by
  induction h generalizing j with
  | nil => cases j <;> simp [heapGet]
  | cons a h ih =>
    cases j with
    | zero => simp [heapGet]
    | succ m =>
      have := ih m
      simp only [heapGet] at this ⊢
      simpa [Nat.succ_lt_succ_iff] using this

theorem lookupA_mem {tm : List (String × Nat)} {k : String} {i : Nat}
    (h : lookupA tm k = some i) : (k, i) ∈ tm := by
  induction tm with
  | nil => simp [lookupA] at h
  | cons kv rest ih =>
    obtain ⟨k1, v1⟩ := kv
    by_cases hk : k1 = k
    · simp only [lookupA, if_pos hk] at h
      cases h
      subst hk
      exact List.mem_cons_self _ _
    · simp only [lookupA, if_neg hk] at h
      exact List.mem_cons_of_mem _ (ih h)

theorem lookupS_mem {l : List (String × List (String × Nat))} {k : String}
    {m : List (String × Nat)} (h : lookupS l k = some m) : (k, m) ∈ l := by
  induction l with
  | nil => simp [lookupS] at h
  | cons sv rest ih =>
    obtain ⟨k1, m1⟩ := sv
    by_cases hk : k1 = k
    · simp only [lookupS, if_pos hk] at h
      cases h
      subst hk
      exact List.mem_cons_self _ _
    · simp only [lookupS, if_neg hk] at h
      exact List.mem_cons_of_mem _ (ih h)

theorem lookupA_eq_none {tm : List (String × Nat)} {k : String} :
    lookupA tm k = none ↔ ∀ kv ∈ tm, kv.1 ≠ k := by
  induction tm with
  | nil => simp [lookupA]
  | cons kv rest ih =>
    by_cases hk : kv.1 = k <;> simp [lookupA, hk, ih]

theorem findTestId_eq_none {l : List (String × List (String × Nat))} {k : String} :
    findTestId l k = none ↔ ∀ sv ∈ l, ∀ kv ∈ sv.2, kv.1 ≠ k := by
  induction l with
  | nil => simp [findTestId]
  | cons sv rest ih =>
    simp only [findTestId]
    cases hl : lookupA sv.2 k with
    | some i =>
      simp only [reduceCtorEq, false_iff]
      intro hall
      exact hall sv (List.mem_cons_self sv rest) (k, i) (lookupA_mem hl) rfl
    | none =>
      rw [ih]
      constructor
      · intro hall sv' hsv' kv hkv
        rcases List.mem_cons.mp hsv' with rfl | hmem
        · exact (lookupA_eq_none.mp hl) kv hkv
        · exact hall sv' hmem kv hkv
      · intro hall sv' hsv' kv hkv
        exact hall sv' (List.mem_cons_of_mem _ hsv') kv hkv

theorem findTestId_mem {l : List (String × List (String × Nat))} {k : String} {i : Nat}
    (h : findTestId l k = some i) : ∃ sv ∈ l, (k, i) ∈ sv.2 := by
  induction l with
  | nil => simp [findTestId] at h
  | cons sv rest ih =>
    simp only [findTestId] at h
    cases hl : lookupA sv.2 k with
    | some j =>
      rw [hl] at h
      cases h
      exact ⟨sv, List.mem_cons_self sv rest, lookupA_mem hl⟩
    | none =>
      rw [hl] at h
      obtain ⟨sv', hsv', hkv⟩ := ih h
      exact ⟨sv', List.mem_cons_of_mem _ hsv', hkv⟩

theorem mem_setS {l : List (String × List (String × Nat))} {k : String}
    {m : List (String × Nat)} {sv : String × List (String × Nat)}
    (h : sv ∈ setS l k m) : sv = (k, m) ∨ sv ∈ l := by
  obtain ⟨sv0, hsv0, heq⟩ := List.mem_map.mp h
  by_cases hk : sv0.1 = k
  · left
    rw [← heq]
    simp [hk]
  · right
    rw [← heq]
    simpa [hk] using hsv0

/-- Branch selection: a package-result line flushes. -/
theorem processLine_result {st : St} {l : String} (h : isResultLine l = true) :
    processLine st l = flush st := by
  simp [processLine, h]

/-- Branch selection: a status line runs the status branch. -/
theorem processLine_status {st : St} {l : String} {g : String × String × String}
    (h1 : isResultLine l = false) (h2 : statusMatch l = some g) :
    processLine st l = statusStep st g.1 g.2.1 g.2.2 := by
  simp [processLine, h1, h2]

/-- Branch selection: a decodable JSON line runs the record branch. -/
theorem processLine_record {st : St} {l : String} {info : Info}
    (h1 : isResultLine l = false) (h2 : statusMatch l = none)
    (h3 : unmarshalInfo l = some info) :
    processLine st l = addRecord st info := by
  simp [processLine, h1, h2, h3]

/-- Branch selection: anything else runs the fallback branch. -/
theorem processLine_fallback {st : St} {l : String}
    (h1 : isResultLine l = false) (h2 : statusMatch l = none)
    (h3 : unmarshalInfo l = none) :
    processLine st l = fallbackStep st l := by
  simp [processLine, h1, h2, h3]

theorem statusStep_report (st : St) (kw nm secs : String) :
    (statusStep st kw nm secs).report = st.report := by
  unfold statusStep
  cases h : findTestId st.suites (pathBase nm) <;> simp [h]

theorem addRecord_report (st : St) (info : Info) :
    (addRecord st info).report = st.report := by
  unfold addRecord
  cases h1 : lookupS st.suites info.Suite with
  | none => simp [h1]
  | some tm => cases h2 : lookupA tm info.Test <;> simp [h1, h2]

theorem fallbackStep_report (st : St) (l : String) :
    (fallbackStep st l).report = st.report := by
  unfold fallbackStep
  cases st.cur with
  | none => rfl
  | some i =>
    by_cases hf : (heapGet st.heap i).result = Result.FAIL <;>
      by_cases hs : (heapGet st.heap i).result = Result.SKIP <;>
      simp [hf, hs]

/-- A line that is not a package-result line leaves the emitted report
untouched. -/
theorem processLine_report {st : St} {l : String} (h : isResultLine l = false) :
    (processLine st l).report = st.report := by
  simp only [processLine, h, Bool.false_eq_true, if_false]
  cases statusMatch l with
  | some g => exact statusStep_report st g.1 g.2.1 g.2.2
  | none =>
    cases unmarshalInfo l with
    | some info => exact addRecord_report st info
    | none => exact fallbackStep_report st l

/-- Invariant preservation through the read loop: a property of the state
preserved by processing any line satisfying `Q` holds at the end of the
loop when every line of the stream satisfies `Q`. -/
theorem runLoop_inv (P : St → Prop) (Q : String → Prop)
    (hstep : ∀ st l, Q l → P st → P (processLine st l)) :
    ∀ evs st st', (∀ s, ReadEvent.line s ∈ evs → Q s) → P st →
      runLoop st evs = .ok st' → P st' := by
  intro evs
  induction evs with
  | nil =>
    intro st st' _ hP hrun
    cases hrun
    exact hP
  | cons e rest ih =>
    intro st st' hQ hP hrun
    cases e with
    | line s =>
      exact ih (processLine st s) st'
        (fun s' hs' => hQ s' (List.mem_cons_of_mem _ hs'))
        (hstep st s (hQ s (List.mem_cons_self _ _)) hP) hrun
    | eof =>
      cases hrun
      exact hP
    | ioErr e => cases hrun

/-- Inversion of a successful `Parse`. -/
theorem Parse_some {evs : List ReadEvent} {pkg : String} {r : Report}
    (h : (Parse evs pkg).1 = some r) :
    ∃ st', runLoop {} evs = .ok st' ∧ r = materialize st' := by
  unfold Parse at h
  cases hrun : runLoop {} evs with
  | ok st' =>
    rw [hrun] at h
    cases h
    exact ⟨st', rfl, rfl⟩
  | error e =>
    rw [hrun] at h
    cases h

/-! ### Lemmas for `Failures` (C9) -/

theorem foldl_count_tests (l : List Test) (c : Nat) :
    l.foldl (fun n t => if t.result = .FAIL then n + 1 else n) c =
      c + (l.filter (fun t => decide (t.result = Result.FAIL))).length := by
  induction l generalizing c with
  | nil => simp
  | cons t rest ih =>
    by_cases h : t.result = Result.FAIL
    · simp [h, ih]
      omega
    · simp [h, ih]

theorem foldl_count_packages (l : List Package) (c : Nat) :
    l.foldl
      (fun count p => p.tests.foldl (fun n t => if t.result = .FAIL then n + 1 else n) count)
      c =
    c + (l.map (fun p =>
      (p.tests.filter (fun t => decide (t.result = Result.FAIL))).length)).sum := by
  induction l generalizing c with
  | nil => simp
  | cons p rest ih =>
    simp only [List.foldl_cons, List.map_cons, List.sum_cons]
    rw [ih, foldl_count_tests]
    omega

/-! ### Claim theorems -/

/-- C9: for every Report, `Failures` equals the number of Tests across all
Packages whose Result is FAIL, and returns 0 on a Report with no
Packages. -/
theorem failures_counts_failed_tests :
    (∀ r : Report, Failures r =
      (r.packages.map (fun p =>
        (p.tests.filter (fun t => decide (t.result = Result.FAIL))).length)).sum) ∧
    (∀ r : Report, r.packages = [] → Failures r = 0) := by
  constructor
  · intro r
    unfold Failures
    simpa using foldl_count_packages r.packages 0
  · intro r h
    unfold Failures
    rw [h]
    rfl

/-- Witness for C9: an empty report yields 0, and the count on a concrete
two-package report is the FAIL count 2. -/
theorem failures_counts_failed_tests_witness :
    (⟨[]⟩ : Report).packages = [] ∧ Failures ⟨[]⟩ = 0 ∧ Failures rC9 = 2 :=
  ⟨rfl, failures_counts_failed_tests.2 ⟨[]⟩ rfl,
    (failures_counts_failed_tests.1 rC9).trans (by decide)⟩

theorem runLoop_firstIoErr (evs : List ReadEvent) :
    ∀ (st : St) (e : Nat), runLoop st evs = .error e ↔ firstIoErr evs = some e := by
  induction evs with
  | nil => intro st e; simp [runLoop, firstIoErr]
  | cons ev rest ih =>
    intro st e
    cases ev with
    | line s => simp [runLoop, firstIoErr, ih]
    | eof => simp [runLoop, firstIoErr]
    | ioErr e' => simp [runLoop, firstIoErr]

/-- C8: Parse returns a non-nil error exactly when the underlying reader
fails with a non-EOF error (the first such failure is surfaced), no report
is returned alongside an error, and a stream with no read failure always
produces a report — no line content ever produces an error. -/
theorem parse_error_iff_read_error (evs : List ReadEvent) (pkg : String) :
    (Parse evs pkg).2 = firstIoErr evs ∧
    ((Parse evs pkg).2.isSome → (Parse evs pkg).1 = none) ∧
    ((Parse evs pkg).2 = none → (Parse evs pkg).1.isSome) := by
  unfold Parse
  cases hrun : runLoop {} evs with
  | ok st =>
    have hnone : firstIoErr evs = none := by
      cases hf : firstIoErr evs with
      | none => rfl
      | some e =>
        have := (runLoop_firstIoErr evs {} e).mpr hf
        rw [hrun] at this
        cases this
    simp [hnone]
  | error e =>
    have := (runLoop_firstIoErr evs {} e).mp hrun
    simp [this]

/-- Witness for C8: on a stream with a read error after one line, the
error is surfaced and no report is returned; on an error-free stream a
report is returned. -/
theorem parse_error_iff_read_error_witness :
    (Parse evC8 "").2 = some 7 ∧ (Parse evC8 "").1 = none ∧
    (Parse evC5 "").2 = none ∧ (Parse evC5 "").1.isSome :=
  ⟨by decide, (parse_error_iff_read_error evC8 "").2.1 (by decide),
    by decide, (parse_error_iff_read_error evC5 "").2.2 (by decide)⟩

/-- C10: the package-result line in `evC10` flushes `TestFoo` into the
report with an empty failure list (and without clearing the current-test
handle), and the following free-text line is appended to that already
emitted Test, so the returned Report shows it. -/
theorem late_line_lands_in_emitted_package :
    (Except.map (fun st => (materialize st).packages.map (fun p =>
        p.tests.map (fun t => (t.name, t.result, t.failure))))
      (runLoop {} (evC10.take 3))) =
        .ok [[("TestFoo", Result.FAIL, [])]] ∧
    (Except.map (fun st => st.cur) (runLoop {} (evC10.take 3))) = .ok (some 0) ∧
    ((Parse evC10 "").1.map (fun r => r.packages.map (fun p =>
        p.tests.map (fun t => (t.name, t.result, t.failure))))) =
      some [[("TestFoo", Result.FAIL, ["late failure detail"])]] ∧
    evC10.take 3 ++ [.line "late failure detail"] = evC10 := by
  refine ⟨rfl, rfl, rfl, rfl⟩

/-- C4: a line matching no other rule is appended to the current test's
failure lines when its result is FAIL, to its skip lines when SKIP, and is
dropped without any state change when the handle is nil or the result is
PASS. -/
theorem fallback_routing (st : St) (line : String)
    (h1 : isResultLine line = false) (h2 : statusMatch line = none)
    (h3 : unmarshalInfo line = none) :
    (st.cur = none → processLine st line = st) ∧
    (∀ i, st.cur = some i →
      (((heapGet st.heap i).result = .FAIL →
        processLine st line =
          { st with
            heap := heapSet st.heap i
              ({ heapGet st.heap i with
                failure := (heapGet st.heap i).failure ++ [line] }) }) ∧
      ((heapGet st.heap i).result = .SKIP →
        processLine st line =
          { st with
            heap := heapSet st.heap i
              ({ heapGet st.heap i with
                skipMsg := (heapGet st.heap i).skipMsg ++ [line] }) }) ∧
      ((heapGet st.heap i).result = .PASS → processLine st line = st))) := by
  rw [processLine_fallback h1 h2 h3]
  constructor
  · intro hc
    unfold fallbackStep
    rw [hc]
  · intro i hc
    unfold fallbackStep
    rw [hc]
    refine ⟨?_, ?_, ?_⟩ <;> intro hr <;> simp [hr]

/-- Witness for C4: a plain text line is appended to the failed current
test of `stF`. -/
theorem fallback_routing_witness :
    isResultLine "oops" = false ∧ statusMatch "oops" = none ∧
    unmarshalInfo "oops" = none ∧ stF.cur = some 0 ∧
    (heapGet stF.heap 0).result = .FAIL ∧
    processLine stF "oops" =
      { stF with
        heap := heapSet stF.heap 0
          ({ heapGet stF.heap 0 with
            failure := (heapGet stF.heap 0).failure ++ ["oops"] }) } :=
  ⟨by decide, by decide, by decide, rfl, by decide,
    ((fallback_routing stF "oops" (by decide) (by decide) (by decide)).2 0 rfl).1 (by decide)⟩

/-- C3: on a status line the captured name is reduced by `path.Base` and
looked up across every suite's test map; a miss clears the current-test
handle and changes nothing else (no Test is created); a hit sets the
test's result from the keyword and its duration from the captured seconds
and points the handle at it. -/
theorem status_line_routing (st : St) (line kw nm secs : String)
    (h1 : isResultLine line = false)
    (h2 : statusMatch line = some (kw, nm, secs)) :
    (findTestId st.suites (pathBase nm) = none ↔
      ∀ sv ∈ st.suites, ∀ kv ∈ sv.2, kv.1 ≠ pathBase nm) ∧
    (findTestId st.suites (pathBase nm) = none →
      processLine st line = { st with cur := none }) ∧
    (∀ i, findTestId st.suites (pathBase nm) = some i →
      processLine st line =
        { st with
          heap := heapSet st.heap i
            ({ heapGet st.heap i with
              result := kwResult kw, duration := parseSeconds secs }),
          cur := some i }) := by
  refine ⟨findTestId_eq_none, ?_, ?_⟩
  · intro hf
    rw [processLine_status h1 h2]
    unfold statusStep
    simp [hf]
  · intro i hf
    rw [processLine_status h1 h2]
    unfold statusStep
    simp [hf]

/-- Witness for C3: `--- PASS: sub/TestFoo (0.10s)` reduces the name to
`TestFoo`, finds it in `stW`, marks it PASS with duration 100ms and sets
the handle. -/
theorem status_line_routing_witness :
    isResultLine lineC3 = false ∧
    statusMatch lineC3 = some ("PASS", "sub/TestFoo", "0.10") ∧
    pathBase "sub/TestFoo" = "TestFoo" ∧
    findTestId stW.suites (pathBase "sub/TestFoo") = some 0 ∧
    processLine stW lineC3 =
      { stW with
        heap := heapSet stW.heap 0
          ({ heapGet stW.heap 0 with
            result := kwResult "PASS", duration := parseSeconds "0.10" }),
        cur := some 0 } :=
  ⟨by decide, by decide, by decide, by decide,
    (status_line_routing stW lineC3 "PASS" "sub/TestFoo" "0.10"
      (by decide) (by decide)).2.2 0 (by decide)⟩

/-- C2: the final report is built only from flushed packages — the
accumulation buffer left at end of stream is discarded — and a stream of
structured JSON records with no package-result line yields a report with
zero packages. -/
theorem unclosed_packages_discarded :
    (∀ st : St, materialize { st with suites := [] } = materialize st) ∧
    (∀ evs pkg,
      (∀ s, ReadEvent.line s ∈ evs →
        isResultLine s = false ∧ statusMatch s = none ∧ (unmarshalInfo s).isSome) →
      ∀ r, (Parse evs pkg).1 = some r → r.packages = []) := by
  constructor
  · intro st
    rfl
  · intro evs pkg hlines r hr
    obtain ⟨st', hrun, rfl⟩ := Parse_some hr
    have hrep : st'.report = [] := by
      refine runLoop_inv (fun st => st.report = []) (fun s => isResultLine s = false)
        ?_ evs {} st' (fun s hs => (hlines s hs).1) rfl hrun
      intro st l hQ hP
      rw [processLine_report hQ]
      exact hP
    unfold materialize
    simp [hrep]

/-- Witness for C2: the two-JSON-record stream `evC2` produces a report
with no packages. -/
theorem unclosed_packages_discarded_witness :
    (∀ s, ReadEvent.line s ∈ evC2 →
      isResultLine s = false ∧ statusMatch s = none ∧ (unmarshalInfo s).isSome) ∧
    rC2.packages = [] := by
  have hQ : ∀ s, ReadEvent.line s ∈ evC2 →
      isResultLine s = false ∧ statusMatch s = none ∧ (unmarshalInfo s).isSome := by
    intro s hs
    simp only [evC2, List.mem_cons, List.not_mem_nil, or_false,
      ReadEvent.line.injEq] at hs
    rcases hs with rfl | rfl <;> exact ⟨by decide, by decide, by decide⟩
  exact ⟨hQ, unclosed_packages_discarded.2 evC2 "" hQ rC2 rfl⟩

/-- C7: the captured fields of a package-result line are not attached to
the flushed packages: processing any two package-result lines from the
same state gives identical states, and every package of a returned report
has empty CoveragePct and no Benchmarks. -/
theorem result_line_fields_not_attached :
    (∀ (st : St) (l1 l2 : String), isResultLine l1 = true → isResultLine l2 = true →
      processLine st l1 = processLine st l2) ∧
    (∀ evs pkg r, (Parse evs pkg).1 = some r →
      ∀ p ∈ r.packages, p.coveragePct = "" ∧ p.benchmarks = []) := by
  constructor
  · intro st l1 l2 ha hb
    rw [processLine_result ha, processLine_result hb]
  · intro evs pkg r hr p hp
    obtain ⟨st', hrun, rfl⟩ := Parse_some hr
    have hinv : ∀ e ∈ st'.report, e.coveragePct = "" ∧ e.benchmarks = [] := by
      refine runLoop_inv (fun st => ∀ e ∈ st.report, e.coveragePct = "" ∧ e.benchmarks = [])
        (fun _ => True) ?_ evs {} st' (fun _ _ => trivial) (by intro e he; cases he) hrun
      intro st l _ hP
      by_cases hres : isResultLine l
      · rw [processLine_result hres]
        intro e he
        unfold flush at he
        rcases List.mem_append.mp he with h1 | h2
        · exact hP e h1
        · obtain ⟨sv, _, rfl⟩ := List.mem_map.mp h2
          exact ⟨rfl, rfl⟩
      · rw [show (processLine st l).report = st.report from
          processLine_report (by simpa using hres)]
        exact hP
    unfold materialize at hp
    obtain ⟨e, he, rfl⟩ := List.mem_map.mp hp
    exact hinv e he

/-- Witness for C7: a result line carrying coverage and one reading
`(cached)` produce the same flush from `stW`, and the report parsed from
`evC5` carries no coverage or benchmarks. -/
theorem result_line_fields_not_attached_witness :
    isResultLine "ok pkgA 0.5s coverage: 87.5% of statements" = true ∧
    isResultLine "ok pkgA (cached)" = true ∧
    processLine stW "ok pkgA 0.5s coverage: 87.5% of statements" =
      processLine stW "ok pkgA (cached)" ∧
    (∀ p ∈ rC5.packages, p.coveragePct = "" ∧ p.benchmarks = []) :=
  ⟨by decide, by decide,
    result_line_fields_not_attached.1 stW _ _ (by decide) (by decide),
    result_line_fields_not_attached.2 evC5 "" rC5 rfl⟩

/-! ### Lemmas for duration aggregation (C1) -/

theorem flushSuite_go (heap : List Test) (tm : List (String × Nat))
    (a1 : List Nat) (a2 : Int) :
    tm.foldl
      (fun acc kv => (acc.1 ++ [kv.2], wrap64 (acc.2 + (heapGet heap kv.2).duration)))
      (a1, a2) =
    (a1 ++ tm.map Prod.snd,
     tm.foldl (fun a kv => wrap64 (a + (heapGet heap kv.2).duration)) a2) := by
  induction tm generalizing a1 a2 with
  | nil => simp
  | cons kv rest ih => simp [ih]

theorem wrap64_eq_self {x : Int} (h1 : -9223372036854775808 ≤ x) (h2 : x ≤ maxInt64) :
    wrap64 x = x := by
  unfold wrap64
  unfold maxInt64 at h2
  have h3 : (0 : Int) ≤ x + 9223372036854775808 := by omega
  have h4 : x + 9223372036854775808 < 18446744073709551616 := by omega
  rw [Int.emod_eq_of_lt h3 h4]
  omega

theorem sumDur_nonneg {heap : List Test} {tm : List (String × Nat)}
    (h : ∀ kv ∈ tm, 0 ≤ (heapGet heap kv.2).duration) :
    0 ≤ sumDur heap tm := by
  unfold sumDur
  apply List.sum_nonneg
  intro x hx
  obtain ⟨kv, hkv, rfl⟩ := List.mem_map.mp hx
  exact h kv hkv

theorem wrapFold_eq_sumDur (heap : List Test) (tm : List (String × Nat)) :
    ∀ a2 : Int, 0 ≤ a2 →
    (∀ kv ∈ tm, 0 ≤ (heapGet heap kv.2).duration ∧
      (heapGet heap kv.2).duration ≤ maxInt64) →
    a2 + sumDur heap tm ≤ maxInt64 →
    tm.foldl (fun a kv => wrap64 (a + (heapGet heap kv.2).duration)) a2 =
      a2 + sumDur heap tm := by
  induction tm with
  | nil =>
    intro a2 _ _ _
    simp [sumDur]
  | cons kv rest ih =>
    intro a2 ha hb hs
    have hd := hb kv (List.mem_cons_self _ _)
    have hrest : ∀ kv' ∈ rest, 0 ≤ (heapGet heap kv'.2).duration ∧
        (heapGet heap kv'.2).duration ≤ maxInt64 :=
      fun kv' h' => hb kv' (List.mem_cons_of_mem _ h')
    have hcons : sumDur heap (kv :: rest) =
        (heapGet heap kv.2).duration + sumDur heap rest := by
      simp [sumDur]
    have hnn : 0 ≤ sumDur heap rest := sumDur_nonneg (fun kv' h' => (hrest kv' h').1)
    rw [hcons] at hs
    have hw : wrap64 (a2 + (heapGet heap kv.2).duration) =
        a2 + (heapGet heap kv.2).duration := by
      apply wrap64_eq_self
      · have : (0 : Int) ≤ a2 + (heapGet heap kv.2).duration := by linarith [hd.1]
        linarith
      · linarith
    simp only [List.foldl_cons, hw]
    rw [ih (a2 + (heapGet heap kv.2).duration) (by linarith [hd.1]) hrest (by linarith)]
    rw [hcons]
    ring

/-- C1, counterexample: the claim's "Duration equals the sum of the
Duration values of its Tests" fails on a reachable stream.  Both tests of
`pkgA` in `evC1` carry duration 2^63 - 1 ns (the capture
`9223372036.854775807` parses to exactly `maxInt64`, accepted by
`ParseDuration`); `suiteTime +=` on int64 wraps, so the emitted Package
has Duration -2 (and Time 0) while its Tests' durations sum to
2^64 - 2. -/
theorem flush_duration_overflow_counterexample :
    parseSeconds "9223372036.854775807" = maxInt64 ∧
    rC1.packages.map (fun p => (p.name, p.duration, p.time)) = [("pkgA", -2, 0)] ∧
    rC1.packages.map (fun p => (p.tests.map Test.duration).sum) =
      [18446744073709551614] ∧
    ¬ rC1.packages.map Package.duration =
        rC1.packages.map (fun p => (p.tests.map Test.duration).sum) := by
  refine ⟨by decide, by decide, by decide, by decide⟩

/-- C1, amended: on a package-result line every package accumulated in
the buffer is emitted with Duration the sum of its Tests' durations at
flush time computed in wrapping int64 arithmetic, and the deprecated Time
field is that Duration in whole milliseconds; whenever the tests'
durations are in int64 range and their mathematical sum fits in int64 —
every stream that does not overflow — that Duration equals the
mathematical sum (the already-emitted packages are untouched). -/
theorem flush_duration_is_wrapped_sum (st : St) (line : String)
    (h : isResultLine line = true) :
    (processLine st line).report.take st.report.length = st.report ∧
    List.Forall₂
      (fun (sv : String × List (String × Nat)) (p : PkgEntry) =>
        p.name = sv.1 ∧ p.tests = sv.2.map Prod.snd ∧
        p.duration = wsumDur st.heap sv.2 ∧
        p.time = Int.tdiv p.duration 1000000 ∧
        ((∀ kv ∈ sv.2, 0 ≤ (heapGet st.heap kv.2).duration ∧
            (heapGet st.heap kv.2).duration ≤ maxInt64) →
          sumDur st.heap sv.2 ≤ maxInt64 →
          p.duration = sumDur st.heap sv.2))
      st.suites ((processLine st line).report.drop st.report.length) := by
  rw [processLine_result h]
  unfold flush
  constructor
  · simp [List.take_left]
  · have hdrop :
        (st.report ++ st.suites.map (mkPkgEntry st.heap)).drop st.report.length =
          st.suites.map (mkPkgEntry st.heap) := List.drop_left _ _
    simp only [hdrop]
    rw [List.forall₂_map_right_iff]
    rw [List.forall₂_same]
    intro sv hsv
    have hgo := flushSuite_go st.heap sv.2 [] 0
    unfold mkPkgEntry flushSuite
    rw [hgo]
    simp only [List.nil_append]
    refine ⟨?_, ?_, ?_, ?_, ?_⟩ <;> try trivial
    intro hb hs
    have hsum := wrapFold_eq_sumDur st.heap sv.2 0 le_rfl hb (by simpa using hs)
    simpa using hsum

/-- Witness for C1 (amended): flushing `stW` (one suite, one 10ms test)
with a result line emits `pkgA` with the wrapped-sum duration, which here
is within range. -/
theorem flush_duration_is_wrapped_sum_witness :
    isResultLine "ok   pkgA 0.010s" = true ∧
    ((processLine stW "ok   pkgA 0.010s").report.take stW.report.length = stW.report ∧
      List.Forall₂
        (fun (sv : String × List (String × Nat)) (p : PkgEntry) =>
          p.name = sv.1 ∧ p.tests = sv.2.map Prod.snd ∧
          p.duration = wsumDur stW.heap sv.2 ∧
          p.time = Int.tdiv p.duration 1000000 ∧
          ((∀ kv ∈ sv.2, 0 ≤ (heapGet stW.heap kv.2).duration ∧
              (heapGet stW.heap kv.2).duration ≤ maxInt64) →
            sumDur stW.heap sv.2 ≤ maxInt64 →
            p.duration = sumDur stW.heap sv.2))
        stW.suites
        ((processLine stW "ok   pkgA 0.010s").report.drop stW.report.length)) :=
  ⟨by decide, flush_duration_is_wrapped_sum stW "ok   pkgA 0.010s" (by decide)⟩

/-! ### Lemmas for the JSON decode characterization (C6) -/

theorem applyMember_isSome (i : Info) (kv : String × Json) :
    (applyMember i kv).isSome = memberOk kv := by
  unfold applyMember memberOk strOrNull
  by_cases h1 : foldEqA kv.1 "Suite" <;> by_cases h2 : foldEqA kv.1 "Test" <;>
    by_cases h3 : foldEqA kv.1 "Msg" <;> cases kv.2 <;> simp [h1, h2, h3]

theorem foldMembers_isSome (ms : List (String × Json)) :
    ∀ o : Option Info,
      (ms.foldl (fun acc kv => acc.bind (fun i => applyMember i kv)) o).isSome =
        (o.isSome && ms.all memberOk) := by
  induction ms with
  | nil =>
    intro o
    simp
  | cons kv rest ih =>
    intro o
    cases o with
    | none => simp [ih none]
    | some i =>
      simp only [List.foldl_cons, Option.some_bind]
      rw [ih (applyMember i kv)]
      simp [applyMember_isSome, Bool.and_assoc]

/-- C6, counterexample: the line `{}` is not a JSON object with exactly
the three string fields `Suite`, `Test`, `Msg`, yet it unmarshals
successfully (Go's decode is lenient), is classified as a structured
output record by the loop, and creates a Test (with empty name, in a
suite with empty name). -/
theorem json_rule_strictness_counterexample :
    strictRecord "\x7b\x7d" = false ∧
    isResultLine "\x7b\x7d" = false ∧
    statusMatch "\x7b\x7d" = none ∧
    unmarshalInfo "\x7b\x7d" = some { Suite := "", Test := "", Msg := "" } ∧
    (processLine {} "\x7b\x7d").heap = [{ name := "", output := [""] }] ∧
    (processLine {} "\x7b\x7d").suites = [("", [("", 0)])] := by
  refine ⟨by decide, by decide, by decide, by decide, by decide, by decide⟩

/-- C6, amended: a line is classified as a structured output record
(rule 3, i.e. when rules 1–2 do not match) exactly when the whole line
parses as a JSON text whose value is `null` or an object in which every
member whose name case-insensitively matches `Suite`, `Test` or `Msg`
holds a string or `null` (missing fields default to empty, other members
are ignored); only such lines create a Test or append to a Test's output
under rule 3. -/
theorem json_rule_classification :
    (∀ l, (unmarshalInfo l).isSome = goInfoShape l) ∧
    (∀ st l info, isResultLine l = false → statusMatch l = none →
      unmarshalInfo l = some info → processLine st l = addRecord st info) ∧
    (∀ st l, isResultLine l = false → statusMatch l = none →
      unmarshalInfo l = none →
      (processLine st l).heap.length = st.heap.length ∧
      ∀ j, (heapGet (processLine st l).heap j).output = (heapGet st.heap j).output ∧
        (heapGet (processLine st l).heap j).name = (heapGet st.heap j).name) := by
  refine ⟨?_, ?_, ?_⟩
  · intro l
    unfold unmarshalInfo goInfoShape
    cases hp : parseJsonText l with
    | none => simp
    | some j =>
      cases j with
      | null => simp [decodeInfo]
      | bool b => simp [decodeInfo]
      | num => simp [decodeInfo]
      | str s => simp [decodeInfo]
      | arr a => simp [decodeInfo]
      | obj ms =>
        simpa [decodeInfo] using foldMembers_isSome ms (some {})
  · intro st l info h1 h2 h3
    exact processLine_record h1 h2 h3
  · intro st l h1 h2 h3
    rw [processLine_fallback h1 h2 h3]
    unfold fallbackStep
    cases hc : st.cur with
    | none => exact ⟨rfl, fun j => ⟨rfl, rfl⟩⟩
    | some i =>
      dsimp only
      by_cases hf : (heapGet st.heap i).result = Result.FAIL
      · rw [if_pos hf]
        dsimp only
        refine ⟨length_heapSet _ _ _, ?_⟩
        intro j
        rw [heapGet_set]
        by_cases hji : j = i ∧ i < st.heap.length
        · rw [if_pos hji, hji.1]
          exact ⟨rfl, rfl⟩
        · rw [if_neg hji]
          exact ⟨rfl, rfl⟩
      · by_cases hsk : (heapGet st.heap i).result = Result.SKIP
        · rw [if_neg hf, if_pos hsk]
          dsimp only
          refine ⟨length_heapSet _ _ _, ?_⟩
          intro j
          rw [heapGet_set]
          by_cases hji : j = i ∧ i < st.heap.length
          · rw [if_pos hji, hji.1]
            exact ⟨rfl, rfl⟩
          · rw [if_neg hji]
            exact ⟨rfl, rfl⟩
        · rw [if_neg hf, if_neg hsk]
          exact ⟨rfl, fun j => ⟨rfl, rfl⟩⟩

/-- Witness for C6 (amended): a well-formed record line is routed to the
record branch and a non-JSON line leaves every test's name and output
unchanged. -/
theorem json_rule_classification_witness :
    isResultLine "\x7b\"Suite\":\"p\",\"Test\":\"T\",\"Msg\":\"m\"\x7d" = false ∧
    statusMatch "\x7b\"Suite\":\"p\",\"Test\":\"T\",\"Msg\":\"m\"\x7d" = none ∧
    unmarshalInfo "\x7b\"Suite\":\"p\",\"Test\":\"T\",\"Msg\":\"m\"\x7d" =
      some { Suite := "p", Test := "T", Msg := "m" } ∧
    processLine stW "\x7b\"Suite\":\"p\",\"Test\":\"T\",\"Msg\":\"m\"\x7d" =
      addRecord stW { Suite := "p", Test := "T", Msg := "m" } ∧
    isResultLine "oops2" = false ∧ statusMatch "oops2" = none ∧
    unmarshalInfo "oops2" = none ∧
    (processLine stW "oops2").heap.length = stW.heap.length :=
  ⟨by decide, by decide, by decide,
    json_rule_classification.2.1 stW _ _ (by decide) (by decide) (by decide),
    by decide, by decide, by decide,
    (json_rule_classification.2.2 stW "oops2" (by decide) (by decide) (by decide)).1⟩

/-! ### Lemmas for the default-result invariant (C5) -/

/-- Replacing heap slot `i` by a test with the same name, result and
duration preserves the C5 invariant. -/
theorem invC5_set_frame (N : String) (suites : List (String × List (String × Nat)))
    (heap : List Test) (i : Nat) (t' : Test)
    (hn : t'.name = (heapGet heap i).name)
    (hr : t'.result = (heapGet heap i).result)
    (hd : t'.duration = (heapGet heap i).duration)
    (h : invC5 N suites heap) : invC5 N suites (heapSet heap i t') := by
  obtain ⟨hkey, hpure⟩ := h
  constructor
  · intro sv hsv kv hkv
    obtain ⟨hlt, hnm⟩ := hkey sv hsv kv hkv
    refine ⟨by rw [length_heapSet]; exact hlt, ?_⟩
    rw [heapGet_set]
    by_cases hji : kv.2 = i ∧ i < heap.length
    · rw [if_pos hji, hn, ← hji.1]
      exact hnm
    · rw [if_neg hji]
      exact hnm
  · intro j hname
    rw [heapGet_set] at hname ⊢
    by_cases hji : j = i ∧ i < heap.length
    · rw [if_pos hji] at hname ⊢
      rw [hn] at hname
      have := hpure i hname
      exact ⟨by rw [hr]; exact this.1, by rw [hd]; exact this.2⟩
    · rw [if_neg hji] at hname ⊢
      exact hpure j hname

/-- Replacing heap slot `i` by a test with the same name preserves the C5
invariant when the slot's name is not `N`. -/
theorem invC5_set_offname (N : String) (suites : List (String × List (String × Nat)))
    (heap : List Test) (i : Nat) (t' : Test)
    (hn : t'.name = (heapGet heap i).name)
    (hN : (heapGet heap i).name ≠ N)
    (h : invC5 N suites heap) : invC5 N suites (heapSet heap i t') := by
  obtain ⟨hkey, hpure⟩ := h
  constructor
  · intro sv hsv kv hkv
    obtain ⟨hlt, hnm⟩ := hkey sv hsv kv hkv
    refine ⟨by rw [length_heapSet]; exact hlt, ?_⟩
    rw [heapGet_set]
    by_cases hji : kv.2 = i ∧ i < heap.length
    · rw [if_pos hji, hn, ← hji.1]
      exact hnm
    · rw [if_neg hji]
      exact hnm
  · intro j hname
    rw [heapGet_set] at hname ⊢
    by_cases hji : j = i ∧ i < heap.length
    · rw [if_pos hji] at hname
      rw [hn] at hname
      exact absurd hname hN
    · rw [if_neg hji] at hname ⊢
      exact hpure j hname

/-- Appending a fresh zero-result test to the heap preserves the C5
invariant for any suites structure whose entries point either at old
well-named slots or at the fresh slot under the fresh test's name. -/
theorem invC5_append (N : String) (suites' : List (String × List (String × Nat)))
    (heap : List Test) (t0 : Test)
    (h0r : t0.result = .PASS) (h0d : t0.duration = 0)
    (hsub : ∀ sv ∈ suites', ∀ kv ∈ sv.2,
      (kv.2 < heap.length ∧ (heapGet heap kv.2).name = kv.1) ∨
        (kv.1 = t0.name ∧ kv.2 = heap.length))
    (hpure : ∀ j, (heapGet heap j).name = N →
      (heapGet heap j).result = .PASS ∧ (heapGet heap j).duration = 0) :
    invC5 N suites' (heap ++ [t0]) := by
  constructor
  · intro sv hsv kv hkv
    rcases hsub sv hsv kv hkv with ⟨hlt, hnm⟩ | ⟨hk1, hk2⟩
    · refine ⟨?_, ?_⟩
      · rw [List.length_append]
        omega
      · rw [heapGet_append, if_pos hlt]
        exact hnm
    · refine ⟨?_, ?_⟩
      · rw [List.length_append, hk2]
        simp
      · rw [heapGet_append, hk2, if_neg (lt_irrefl _), if_pos rfl]
        exact hk1.symm
  · intro j hname
    rw [heapGet_append] at hname ⊢
    by_cases h1 : j < heap.length
    · rw [if_pos h1] at hname ⊢
      exact hpure j hname
    · rw [if_neg h1] at hname ⊢
      by_cases h2 : j = heap.length
      · rw [if_pos h2]
        exact ⟨h0r, h0d⟩
      · rw [if_neg h2]
        exact ⟨rfl, rfl⟩

/-- One line of processing preserves the C5 invariant, provided the line
is not a status line whose reduced name is `N`. -/
theorem invC5_step (N : String) (st : St) (l : String)
    (hl : statusTargets N l = false)
    (h : invC5 N st.suites st.heap) :
    invC5 N (processLine st l).suites (processLine st l).heap := by
  by_cases hres : isResultLine l
  · rw [processLine_result hres]
    exact ⟨fun sv hsv => absurd hsv (List.not_mem_nil sv), h.2⟩
  · have hres' : isResultLine l = false := by simpa using hres
    cases hsm : statusMatch l with
    | some g =>
      have hnm : pathBase g.2.1 ≠ N := by
        unfold statusTargets at hl
        rw [hres', hsm] at hl
        simpa using hl
      rw [processLine_status hres' hsm]
      unfold statusStep
      dsimp only
      cases hf : findTestId st.suites (pathBase g.2.1) with
      | none =>
        simp only [hf]
        exact h
      | some i =>
        simp only [hf]
        obtain ⟨sv0, hsv0, hmem0⟩ := findTestId_mem hf
        have hkey0 := h.1 sv0 hsv0 _ hmem0
        exact invC5_set_offname N st.suites st.heap i _ rfl
          (by rw [hkey0.2]; exact hnm) h
    | none =>
      cases hum : unmarshalInfo l with
      | some info =>
        rw [processLine_record hres' hsm hum]
        unfold addRecord
        cases hls : lookupS st.suites info.Suite with
        | some tm =>
          cases hla : lookupA tm info.Test with
          | some i =>
            simp only [hls, hla]
            exact invC5_set_frame N st.suites st.heap i _ rfl rfl rfl h
          | none =>
            simp only [hls, hla]
            apply invC5_append N _ st.heap _ rfl rfl ?_ h.2
            intro sv hsv kv hkv
            rcases mem_setS hsv with rfl | hold
            · rcases List.mem_append.mp hkv with hin | hnew
              · exact Or.inl (h.1 _ (lookupS_mem hls) _ hin)
              · rw [List.mem_singleton] at hnew
                subst hnew
                exact Or.inr ⟨rfl, rfl⟩
            · exact Or.inl (h.1 _ hold _ hkv)
        | none =>
          simp only [hls]
          apply invC5_append N _ st.heap _ rfl rfl ?_ h.2
          intro sv hsv kv hkv
          rcases List.mem_append.mp hsv with hold | hnew
          · exact Or.inl (h.1 _ hold _ hkv)
          · rw [List.mem_singleton] at hnew
            subst hnew
            rw [List.mem_singleton] at hkv
            subst hkv
            exact Or.inr ⟨rfl, rfl⟩
      | none =>
        rw [processLine_fallback hres' hsm hum]
        unfold fallbackStep
        cases hc : st.cur with
        | none => exact h
        | some i =>
          dsimp only
          by_cases hfa : (heapGet st.heap i).result = Result.FAIL
          · rw [if_pos hfa]
            exact invC5_set_frame N st.suites st.heap i _ rfl rfl rfl h
          · by_cases hsk2 : (heapGet st.heap i).result = Result.SKIP
            · rw [if_neg hfa, if_pos hsk2]
              exact invC5_set_frame N st.suites st.heap i _ rfl rfl rfl h
            · rw [if_neg hfa, if_neg hsk2]
              exact h

/-- C5: a test whose name is never mentioned by any status line of the
stream — in particular one created only by structured JSON records —
appears in the returned Report with result PASS (the zero value of the
Result enum) and zero duration. -/
theorem json_created_test_defaults (evs : List ReadEvent) (pkg N : String)
    (hN : ∀ s, ReadEvent.line s ∈ evs → statusTargets N s = false) :
    ∀ r, (Parse evs pkg).1 = some r → ∀ p ∈ r.packages, ∀ t ∈ p.tests,
      t.name = N → t.result = .PASS ∧ t.duration = 0 := by
  intro r hr p hp t ht hname
  obtain ⟨st', hrun, rfl⟩ := Parse_some hr
  have hinv : invC5 N st'.suites st'.heap := by
    refine runLoop_inv (fun st => invC5 N st.suites st.heap)
      (fun s => statusTargets N s = false)
      (fun st l hQ hP => invC5_step N st l hQ hP) evs {} st' hN ?_ hrun
    constructor
    · intro sv hsv
      exact absurd hsv (List.not_mem_nil sv)
    · intro j hj
      exact ⟨rfl, rfl⟩
  simp only [materialize] at hp
  obtain ⟨e, he, rfl⟩ := List.mem_map.mp hp
  obtain ⟨idx, hidx, rfl⟩ := List.mem_map.mp (by simpa using ht)
  exact hinv.2 idx hname

/-- Witness for C5: in the scenario-3 stream, `TestBar` is created only by
a JSON record, no status line mentions it, and it comes out PASS with zero
duration. -/
theorem json_created_test_defaults_witness :
    (∀ s, ReadEvent.line s ∈ evC5 → statusTargets "TestBar" s = false) ∧
    (∀ p ∈ rC5.packages, ∀ t ∈ p.tests, t.name = "TestBar" →
      t.result = .PASS ∧ t.duration = 0) ∧
    rC5.packages.map (fun p => p.tests.map (fun t => (t.name, t.result, t.duration))) =
      [[("TestBar", Result.PASS, 0)]] := by
  have hQ : ∀ s, ReadEvent.line s ∈ evC5 → statusTargets "TestBar" s = false := by
    intro s hs
    simp only [evC5, List.mem_cons, List.not_mem_nil, or_false,
      ReadEvent.line.injEq] at hs
    rcases hs with rfl | rfl <;> decide
  exact ⟨hQ, json_created_test_defaults evC5 "" "TestBar" hQ rC5 rfl, by decide⟩

end JR
